import Mathlib

/-!
Verification of the `InstanceWriter` concurrent batching pipeline from
`model_web_ui_filter.go` (package `template`) and its backing
`InstanceRingBuffer`.

The writer buffers incoming telemetry records (`Instance` values, abstracted
here as an arbitrary type `α`) in a fixed-capacity ring buffer and drains them
in size-limited batches to an asynchronous sink, with at most `MaxRequests`
concurrent sends.  The coordinating loop owns the buffer and the non-atomic
bookkeeping (`requestsActive`, `totalWaiting`); send tasks report back through
a completion channel.  We embed the loop as a state-transition system whose
steps are the three kinds of events the loop services: an input record
arriving, an opportunistic flush (`tryToSendChunk`), and a send task
completing (`SendFunc` returning, followed by `handleRequestDone`).
-/

namespace SignalFxWriter

/-- Modelled from the spec: the `InstanceRingBuffer` implementation is
generated code (`go:generate sh ./gen.sh`) that is not part of the repository
sources; this structure embeds its documented contract.  `capacity` is the
fixed size chosen at construction, `unprocessed` holds the inserted but not
yet batched items, oldest first. -/
structure RingBuffer (α : Type) where
  capacity : Nat
  unprocessed : List α

/-- Modelled from the spec: `New(capacity)` constructs an empty buffer of the
given fixed size (valid for positive capacity). -/
def RingBuffer.new (α : Type) (capacity : Nat) : RingBuffer α :=
  { capacity := capacity, unprocessed := [] }

/-- Modelled from the spec: `UnprocessedCount()` is the number of items
inserted but not yet returned by `NextBatch`. -/
def RingBuffer.UnprocessedCount (b : RingBuffer α) : Nat :=
  b.unprocessed.length

/-- Modelled from the spec: `Size()` is the fixed capacity. -/
def RingBuffer.Size (b : RingBuffer α) : Nat :=
  b.capacity

/-- Modelled from the spec: `Add(item)` inserts one item; if the buffer is
already at capacity-worth of unprocessed items, the oldest unprocessed item is
dropped (overwritten) to make room and the call returns `true`, otherwise it
returns `false`.  Insertion never blocks and never errors, so it is a total
function on the state. -/
def RingBuffer.Add (b : RingBuffer α) (item : α) : RingBuffer α × Bool :=
  if b.unprocessed.length = b.capacity then
    ({ b with unprocessed := b.unprocessed.tail ++ [item] }, true)
  else
    ({ b with unprocessed := b.unprocessed ++ [item] }, false)

/-- Modelled from the spec: `NextBatch(max)` returns up to `max` of the oldest
unprocessed items in insertion order and marks them consumed.  The returned
pair is (batch, buffer afterwards). -/
def RingBuffer.NextBatch (b : RingBuffer α) (max : Nat) : List α × RingBuffer α :=
  (b.unprocessed.take max, { b with unprocessed := b.unprocessed.drop max })

/-- One operation of the ring buffer's external interface, used to quantify
over arbitrary interleavings of insertions and batch extractions. -/
inductive BufOp (α : Type) where
  | add (a : α)
  | next (n : Nat)

/-- Apply one buffer operation, returning the new buffer and the batch the
operation produced (empty for an insertion). -/
def RingBuffer.applyOp (b : RingBuffer α) : BufOp α → RingBuffer α × List α
  | .add a => ((b.Add a).1, [])
  | .next n => ((b.NextBatch n).2, (b.NextBatch n).1)

/-- Run a sequence of buffer operations, collecting every batch returned by a
`NextBatch` call along the way. -/
def RingBuffer.runOps (b : RingBuffer α) : List (BufOp α) → RingBuffer α × List (List α)
  | [] => (b, [])
  | op :: ops =>
    let r := b.applyOp op
    let rest := r.1.runOps ops
    (rest.1, r.2 :: rest.2)

/-- Insert a list of items one by one (each `Add` is an independent
evict-oldest-if-full step, matching the writer's per-record insertion). -/
def RingBuffer.addAll (b : RingBuffer α) (items : List α) : RingBuffer α :=
  items.foldl (fun acc a => (acc.Add a).1) b

/-- State of the `InstanceWriter` coordinating loop, from
`model_web_ui_filter.go`.  Counters that are `int64` in the source are
embedded as `Int`; `pending` models the multiset of batches handed to
launched send tasks whose completion the loop has not yet processed (each
task holds one `chunkCopy` slice). -/
structure WriterState (α : Type) where
  MaxRequests : Nat
  MaxBatchSize : Nat
  buff : RingBuffer α
  requestsActive : Int
  totalWaiting : Int
  TotalReceived : Nat
  TotalFilteredOut : Nat
  TotalInFlight : Int
  TotalSent : Nat
  TotalFailedToSend : Nat
  TotalOverwritten : Nat
  pending : List (List α)

/-- `tryToSendChunk` from the source: if `requestsActive >= MaxRequests`,
record the unprocessed count as waiting and return; otherwise pull the next
batch of up to `MaxBatchSize` items, and if it is non-empty, bump the
in-flight and active-request counters, launch a send task with a copy of the
batch (modelled by pushing the batch onto `pending`), and record the remaining
unprocessed count as waiting. -/
def tryToSendChunk (s : WriterState α) : WriterState α :=
  let totalUnprocessed := s.buff.UnprocessedCount
  if s.requestsActive ≥ (s.MaxRequests : Int) then
    { s with totalWaiting := (totalUnprocessed : Int) }
  else
    let r := s.buff.NextBatch s.MaxBatchSize
    let chunk := r.1
    if chunk.length = 0 then s
    else
      { s with
        buff := r.2
        TotalInFlight := s.TotalInFlight + (chunk.length : Int)
        requestsActive := s.requestsActive + 1
        pending := chunk :: s.pending
        totalWaiting := (r.2.UnprocessedCount : Int) }

/-- The first half of `handleRequestDone` from the source: decrement the
active-request count and decrement `TotalInFlight` by the completed batch's
size. -/
def afterRequestDone (s : WriterState α) (count : Nat) : WriterState α :=
  { s with
    requestsActive := s.requestsActive - 1
    TotalInFlight := s.TotalInFlight - (count : Int) }

/-- `handleRequestDone` from the source: after decrementing the counters, if a
waiting backlog was recorded, immediately attempt another dispatch. -/
def handleRequestDone (s : WriterState α) (count : Nat) : WriterState α :=
  let s1 := afterRequestDone s count
  if s1.totalWaiting > 0 then tryToSendChunk s1 else s1

/-- Completion of one launched send task: the goroutine body in
`tryToSendChunk` adds the batch size to `TotalSent` or `TotalFailedToSend`
according to the error returned by `SendFunc` (`ok = false` means the sink
returned an error), returns its slice to the pool, and signals the batch size
on `requestDoneCh`, which the loop services with `handleRequestDone`. -/
def completeSend [DecidableEq α] (s : WriterState α) (b : List α) (ok : Bool) :
    WriterState α :=
  let s1 :=
    { s with
      pending := s.pending.erase b
      TotalSent := if ok then s.TotalSent + b.length else s.TotalSent
      TotalFailedToSend :=
        if ok then s.TotalFailedToSend else s.TotalFailedToSend + b.length }
  handleRequestDone s1 b.length

/-- One record of `processInput` from the source: increment the received
counter, drop the record if the preprocess function rejects it (its verdict is
the `keep` argument), otherwise insert it into the ring buffer (counting an
overwrite), and if the unprocessed count has reached `MaxBatchSize`,
immediately attempt a dispatch.  The per-record non-blocking completion drain
of `processInput` is modelled by interleaving completion steps of the
transition relation. -/
def processOne (s : WriterState α) (a : α) (keep : Bool) : WriterState α :=
  let s0 := { s with TotalReceived := s.TotalReceived + 1 }
  if keep then
    let r := s0.buff.Add a
    let s1 :=
      { s0 with
        buff := r.1
        TotalOverwritten :=
          if r.2 then s0.TotalOverwritten + 1 else s0.TotalOverwritten }
    if s1.buff.UnprocessedCount ≥ s1.MaxBatchSize then tryToSendChunk s1 else s1
  else
    { s0 with TotalFilteredOut := s0.TotalFilteredOut + 1 }

/-- The events the coordinating loop services, closed under arbitrary
interleaving: a record arriving on the input channel, an opportunistic flush
when the input channel is exhausted, and a launched send task completing. -/
inductive Step [DecidableEq α] : WriterState α → WriterState α → Prop where
  | input (s : WriterState α) (a : α) (keep : Bool) : Step s (processOne s a keep)
  | flush (s : WriterState α) : Step s (tryToSendChunk s)
  | complete (s : WriterState α) (b : List α) (ok : Bool) (hb : b ∈ s.pending) :
      Step s (completeSend s b ok)

/-- The writer state right after `run` finishes its prologue: a fresh ring
buffer of the configured capacity, all counters zero, no send task launched. -/
def initState (α : Type) (maxBuffered maxRequests maxBatchSize : Nat) :
    WriterState α :=
  { MaxRequests := maxRequests
    MaxBatchSize := maxBatchSize
    buff := RingBuffer.new α maxBuffered
    requestsActive := 0
    totalWaiting := 0
    TotalReceived := 0
    TotalFilteredOut := 0
    TotalInFlight := 0
    TotalSent := 0
    TotalFailedToSend := 0
    TotalOverwritten := 0
    pending := [] }

/-- The coordinator-owned bookkeeping invariant: `requestsActive` equals the
number of launched-but-uncompleted send tasks, it never exceeds `MaxRequests`,
and the recorded waiting backlog is a non-negative lower count of what the
buffer actually holds. -/
def WriterInv (s : WriterState α) : Prop :=
  (s.pending.length : Int) = s.requestsActive ∧
  s.requestsActive ≤ (s.MaxRequests : Int) ∧
  0 ≤ s.totalWaiting ∧
  s.totalWaiting ≤ (s.buff.UnprocessedCount : Int)

/-- Lifecycle of the writer's `shutdownFlag` channel: `nil` before `Start`,
an open channel while `run` executes, closed by `Start`'s goroutine once
`run` returns. -/
inductive ShutdownFlag where
  | notStarted
  | running
  | closed
deriving DecidableEq

/-- Possible outcomes of invoking a blocking wait: it can panic, block the
caller, or return. -/
inductive WaitOutcome where
  | panicked (msg : String)
  | blocked
  | returned
deriving DecidableEq

/-- `WaitForShutdown` from the source: panics immediately when
`shutdownFlag == nil` (the writer was never started); otherwise the receive on
the channel blocks until the channel is closed, which `Start`'s goroutine does
only after `run` has returned. -/
def WaitForShutdown : ShutdownFlag → WaitOutcome
  | .notStarted => .panicked "should not wait for writer shutdown when not running"
  | .running => .blocked
  | .closed => .returned

/-- The three user-settable configuration fields of `InstanceWriter`, `int`
in the source. -/
structure WriterConfig where
  MaxBuffered : Int
  MaxRequests : Int
  MaxBatchSize : Int
deriving DecidableEq

/-- `DefaultInstanceMaxBuffered` from the source. -/
def DefaultInstanceMaxBuffered : Int := 10000

/-- `DefaultInstanceMaxRequests` from the source. -/
def DefaultInstanceMaxRequests : Int := 10

/-- `DefaultInstanceMaxBatchSize` from the source. -/
def DefaultInstanceMaxBatchSize : Int := 1000

/-- The prologue of `run` from the source: each configuration field equal to
zero (the Go zero value of an unset field) is replaced by its default; any
other value is kept. -/
def applyDefaults (c : WriterConfig) : WriterConfig :=
  { MaxBuffered :=
      if c.MaxBuffered = 0 then DefaultInstanceMaxBuffered else c.MaxBuffered
    MaxRequests :=
      if c.MaxRequests = 0 then DefaultInstanceMaxRequests else c.MaxRequests
    MaxBatchSize :=
      if c.MaxBatchSize = 0 then DefaultInstanceMaxBatchSize else c.MaxBatchSize }

/-- A pooled chunk slice as drawn from `chunkSliceCache`: `backing` is the
backing array (of length equal to the slice capacity, cells possibly empty),
and `len` is the slice's current length. -/
structure ChunkSlice (α : Type) where
  backing : List (Option α)
  len : Nat

/-- `getChunkSlice` from the source: nil out the elements at indices from
`size` up to the slice's length so they can be collected, then return the
slice truncated (or extended within capacity) to length `size`. -/
def getChunkSlice (slice : ChunkSlice α) (size : Nat) : ChunkSlice α :=
  { backing :=
      slice.backing.mapIdx fun i a =>
        if size ≤ i ∧ i < slice.len then none else a
    len := size }

theorem RingBuffer.capacity_Add (b : RingBuffer α) (x : α) :
    (b.Add x).1.capacity = b.capacity := by
  unfold RingBuffer.Add
  split <;> rfl

theorem RingBuffer.length_Add_le (b : RingBuffer α) (x : α)
    (hpos : 0 < b.capacity) (h : b.unprocessed.length ≤ b.capacity) :
    (b.Add x).1.unprocessed.length ≤ b.capacity := by
  unfold RingBuffer.Add
  split
  · simp [List.length_tail]
    omega
  · rename_i hne
    simp
    omega

theorem RingBuffer.length_le_length_Add (b : RingBuffer α) (x : α) :
    b.unprocessed.length ≤ (b.Add x).1.unprocessed.length := by
  unfold RingBuffer.Add
  split
  · rename_i hfull
    simp [List.length_tail]
    omega
  · simp

theorem RingBuffer.capacity_applyOp (b : RingBuffer α) (op : BufOp α) :
    (b.applyOp op).1.capacity = b.capacity := by
  cases op with
  | add a => simpa [RingBuffer.applyOp] using RingBuffer.capacity_Add b a
  | next n => simp [RingBuffer.applyOp, RingBuffer.NextBatch]

theorem RingBuffer.length_applyOp_le (b : RingBuffer α) (op : BufOp α)
    (hpos : 0 < b.capacity) (h : b.unprocessed.length ≤ b.capacity) :
    (b.applyOp op).1.unprocessed.length ≤ b.capacity := by
  cases op with
  | add a => simpa [RingBuffer.applyOp] using RingBuffer.length_Add_le b a hpos h
  | next n =>
    simp [RingBuffer.applyOp, RingBuffer.NextBatch]
    omega

theorem RingBuffer.runOps_inv (b : RingBuffer α) (ops : List (BufOp α))
    (hpos : 0 < b.capacity) (h : b.unprocessed.length ≤ b.capacity) :
    (b.runOps ops).1.capacity = b.capacity ∧
      (b.runOps ops).1.unprocessed.length ≤ b.capacity := by
  induction ops generalizing b with
  | nil => exact ⟨rfl, h⟩
  | cons op ops ih =>
    have hcap := RingBuffer.capacity_applyOp b op
    have hlen := RingBuffer.length_applyOp_le b op hpos h
    have := ih (b.applyOp op).1 (hcap ▸ hpos) (hcap ▸ hlen)
    simp only [RingBuffer.runOps]
    exact ⟨hcap ▸ this.1, hcap ▸ this.2⟩

theorem RingBuffer.notMem_runOps (b : RingBuffer α) (y : α) (ops : List (BufOp α))
    (hb : y ∉ b.unprocessed) (hops : ∀ a, BufOp.add a ∈ ops → a ≠ y) :
    y ∉ (b.runOps ops).1.unprocessed ∧
      ∀ batch ∈ (b.runOps ops).2, y ∉ batch := by
  induction ops generalizing b with
  | nil =>
    refine ⟨hb, ?_⟩
    simp [RingBuffer.runOps]
  | cons op ops ih =>
    have hops' : ∀ a, BufOp.add a ∈ ops → a ≠ y :=
      fun a ha => hops a (List.mem_cons_of_mem _ ha)
    have hnot : y ∉ (b.applyOp op).1.unprocessed := by
      cases op with
      | add a =>
        have hay : a ≠ y := hops a (List.mem_cons_self _ _)
        simp only [RingBuffer.applyOp, RingBuffer.Add]
        split <;>
          · simp only [List.mem_append, List.mem_singleton]
            rintro (htl | rfl)
            · first
                | exact hb ((List.tail_sublist _).subset htl)
                | exact hb htl
            · exact hay rfl
      | next n =>
        simp only [RingBuffer.applyOp, RingBuffer.NextBatch]
        intro hmem
        exact hb (List.drop_subset _ _ hmem)
    have hbatch : y ∉ (b.applyOp op).2 := by
      cases op with
      | add a => simp [RingBuffer.applyOp]
      | next n =>
        simp only [RingBuffer.applyOp, RingBuffer.NextBatch]
        intro hmem
        exact hb (List.take_subset _ _ hmem)
    have hrec := ih (b.applyOp op).1 hnot hops'
    refine ⟨?_, ?_⟩
    · simpa [RingBuffer.runOps] using hrec.1
    · simp only [RingBuffer.runOps, List.mem_cons]
      rintro batch (rfl | hmem)
      · exact hbatch
      · exact hrec.2 batch hmem

theorem RingBuffer.addAll_eq_append (b : RingBuffer α) (items : List α)
    (h : b.unprocessed.length + items.length ≤ b.capacity) :
    (b.addAll items).unprocessed = b.unprocessed ++ items ∧
      (b.addAll items).capacity = b.capacity := by
  induction items generalizing b with
  | nil => simp [RingBuffer.addAll]
  | cons a items ih =>
    have hne : ¬b.unprocessed.length = b.capacity := by
      simp only [List.length_cons] at h
      omega
    have hAdd : (b.Add a).1 = { b with unprocessed := b.unprocessed ++ [a] } := by
      unfold RingBuffer.Add
      rw [if_neg hne]
    have hstep : b.addAll (a :: items) =
        RingBuffer.addAll { b with unprocessed := b.unprocessed ++ [a] } items := by
      simp only [RingBuffer.addAll, List.foldl_cons, hAdd]
    have := ih { b with unprocessed := b.unprocessed ++ [a] }
      (by simp only [List.length_append, List.length_singleton]
          simp only [List.length_cons] at h
          omega)
    rw [hstep]
    simpa using this

/-- Claim C2: on a full buffer (unprocessed count equal to capacity), `Add`
drops the oldest unprocessed entry (the head of the insertion-ordered list)
and reports `overwrote = true`; on a non-full buffer it appends and reports
`false`; the buffer never grows beyond its capacity; and once an item has been
overwritten, no subsequent sequence of buffer operations that does not
re-insert it ever returns it in a `NextBatch` result. -/
theorem ringBuffer_add_overwrite_spec (α : Type) (b : RingBuffer α) (x y : α)
    (ops : List (BufOp α)) :
    (b.UnprocessedCount = b.capacity → 0 < b.capacity →
      (b.Add x).2 = true ∧
        (b.Add x).1.unprocessed = b.unprocessed.tail ++ [x]) ∧
    (b.UnprocessedCount < b.capacity →
      (b.Add x).2 = false ∧
        (b.Add x).1.unprocessed = b.unprocessed ++ [x]) ∧
    (b.UnprocessedCount ≤ b.capacity → 0 < b.capacity →
      (b.Add x).1.UnprocessedCount ≤ b.capacity) ∧
    (b.UnprocessedCount = b.capacity → b.unprocessed.head? = some y →
      y ∉ b.unprocessed.tail → y ≠ x → (∀ a, BufOp.add a ∈ ops → a ≠ y) →
      y ∉ ((b.Add x).1.runOps ops).1.unprocessed ∧
        ∀ batch ∈ ((b.Add x).1.runOps ops).2, y ∉ batch) := by
  refine ⟨?_, ?_, ?_, ?_⟩
  · intro hfull _
    unfold RingBuffer.UnprocessedCount at hfull
    unfold RingBuffer.Add
    rw [if_pos hfull]
    exact ⟨rfl, rfl⟩
  · intro hlt
    have hne : ¬b.unprocessed.length = b.capacity := by
      unfold RingBuffer.UnprocessedCount at hlt
      omega
    unfold RingBuffer.Add
    rw [if_neg hne]
    exact ⟨rfl, rfl⟩
  · intro hle hpos
    exact RingBuffer.length_Add_le b x hpos hle
  · intro hfull _ htl hyx hops
    unfold RingBuffer.UnprocessedCount at hfull
    have hAdd : (b.Add x).1.unprocessed = b.unprocessed.tail ++ [x] := by
      unfold RingBuffer.Add
      rw [if_pos hfull]
    have hnot : y ∉ (b.Add x).1.unprocessed := by
      rw [hAdd]
      simp only [List.mem_append, List.mem_singleton]
      rintro (h | rfl)
      · exact htl h
      · exact hyx rfl
    exact RingBuffer.notMem_runOps (b.Add x).1 y ops hnot hops

/-- Witness for C2 at concrete inputs: a full buffer of capacity 2 holding
`[1, 2]` (so the overwrite drops 1), and a non-full buffer holding `[1]`. -/
theorem ringBuffer_add_overwrite_spec_witness :
    ((RingBuffer.mk 2 [1, 2]).Add 3).2 = true ∧
      ((RingBuffer.mk 2 [1, 2]).Add 3).1.unprocessed = [2, 3] ∧
      ((RingBuffer.mk 2 [1]).Add 3).2 = false ∧
      ((RingBuffer.mk 2 [1, 2]).Add 3).1.UnprocessedCount ≤ 2 ∧
      ∀ batch ∈ (((RingBuffer.mk 2 [1, 2]).Add 3).1.runOps
          [BufOp.next 2, BufOp.add 9]).2, (1 : Nat) ∉ batch := by
  have h2 := ringBuffer_add_overwrite_spec Nat (RingBuffer.mk 2 [1, 2]) 3 1
    [BufOp.next 2, BufOp.add 9]
  have h1 := ringBuffer_add_overwrite_spec Nat (RingBuffer.mk 2 [1]) 3 1 []
  have hnoadd : ∀ a : Nat, BufOp.add a ∈ [BufOp.next 2, BufOp.add 9] → a ≠ 1 := by
    intro a ha
    simp only [List.mem_cons, List.not_mem_nil, or_false] at ha
    rcases ha with h | h
    · exact absurd h (by simp)
    · injection h with h9
      subst h9
      decide
  refine ⟨(h2.1 rfl (by decide)).1, ?_, (h1.2.1 (by decide)).1,
    h2.2.2.1 (by decide) (by decide),
    (h2.2.2.2 rfl rfl (by decide) (by decide) hnoadd).2⟩
  have := (h2.1 rfl (by decide)).2
  simpa using this

/-- Claim C6: for every sequence of buffer operations (insertions interleaved
with batch extractions) run from a fresh buffer of positive capacity `C`, the
unprocessed count never exceeds `C`. -/
theorem unprocessedCount_le_capacity (α : Type) (C : Nat) (hC : 0 < C)
    (ops : List (BufOp α)) :
    ((RingBuffer.new α C).runOps ops).1.UnprocessedCount ≤ C := by
  have h := RingBuffer.runOps_inv (RingBuffer.new α C) ops
    (by simpa [RingBuffer.new] using hC) (by simp [RingBuffer.new])
  simpa [RingBuffer.UnprocessedCount, RingBuffer.new] using h.2

/-- Witness for C6: three insertions and one extraction on a buffer of
capacity 2. -/
theorem unprocessedCount_le_capacity_witness :
    ((RingBuffer.new Nat 2).runOps
      [BufOp.add 5, BufOp.add 6, BufOp.add 7, BufOp.next 1]).1.UnprocessedCount ≤ 2 :=
  unprocessedCount_le_capacity Nat 2 (by decide)
    [BufOp.add 5, BufOp.add 6, BufOp.add 7, BufOp.next 1]

/-- Claim C7: inserting `k ≤ C` items into a fresh buffer of capacity `C`
leaves exactly those items unprocessed in insertion order; `NextBatch k` then
returns exactly those `k` items in order and leaves the unprocessed count at
zero; and in general every `NextBatch` result is an insertion-ordered front
segment of the unprocessed items. -/
theorem ringBuffer_roundtrip (α : Type) (C : Nat) (items : List α)
    (h : items.length ≤ C) :
    ((RingBuffer.new α C).addAll items).unprocessed = items ∧
      (((RingBuffer.new α C).addAll items).NextBatch items.length).1 = items ∧
      (((RingBuffer.new α C).addAll items).NextBatch
        items.length).2.UnprocessedCount = 0 ∧
      ∀ (b : RingBuffer α) (n : Nat),
        ∃ rest, b.unprocessed = (b.NextBatch n).1 ++ rest := by
  have hall := RingBuffer.addAll_eq_append (RingBuffer.new α C) items
    (by simp [RingBuffer.new]; omega)
  have hun : ((RingBuffer.new α C).addAll items).unprocessed = items := by
    simpa [RingBuffer.new] using hall.1
  refine ⟨hun, ?_, ?_, ?_⟩
  · simp [RingBuffer.NextBatch, hun]
  · simp [RingBuffer.NextBatch, RingBuffer.UnprocessedCount, hun]
  · intro b n
    exact ⟨b.unprocessed.drop n, (List.take_append_drop n b.unprocessed).symm⟩

/-- Witness for C7: two items inserted into a fresh buffer of capacity 3. -/
theorem ringBuffer_roundtrip_witness :
    ((RingBuffer.new Nat 3).addAll [10, 20]).unprocessed = [10, 20] ∧
      (((RingBuffer.new Nat 3).addAll [10, 20]).NextBatch 2).1 = [10, 20] ∧
      (((RingBuffer.new Nat 3).addAll [10, 20]).NextBatch 2).2.UnprocessedCount = 0 := by
  have h := ringBuffer_roundtrip Nat 3 [10, 20] (by decide)
  exact ⟨h.1, h.2.1, h.2.2.1⟩

theorem tryToSendChunk_cases (s : WriterState α) :
    ((s.MaxRequests : Int) ≤ s.requestsActive ∧
      tryToSendChunk s = { s with totalWaiting := (s.buff.UnprocessedCount : Int) }) ∨
    (s.requestsActive < (s.MaxRequests : Int) ∧
      s.buff.unprocessed.take s.MaxBatchSize = [] ∧ tryToSendChunk s = s) ∨
    (s.requestsActive < (s.MaxRequests : Int) ∧
      s.buff.unprocessed.take s.MaxBatchSize ≠ [] ∧
      tryToSendChunk s =
        { s with
          buff := { s.buff with unprocessed := s.buff.unprocessed.drop s.MaxBatchSize }
          TotalInFlight :=
            s.TotalInFlight + ((s.buff.unprocessed.take s.MaxBatchSize).length : Int)
          requestsActive := s.requestsActive + 1
          pending := s.buff.unprocessed.take s.MaxBatchSize :: s.pending
          totalWaiting := ((s.buff.unprocessed.drop s.MaxBatchSize).length : Int) }) := by
  by_cases hge : s.requestsActive ≥ (s.MaxRequests : Int)
  · left
    refine ⟨hge, ?_⟩
    unfold tryToSendChunk
    rw [if_pos hge]
  · by_cases hnil : s.buff.unprocessed.take s.MaxBatchSize = []
    · right; left
      refine ⟨by omega, hnil, ?_⟩
      unfold tryToSendChunk
      rw [if_neg hge]
      simp [RingBuffer.NextBatch, hnil]
    · right; right
      refine ⟨by omega, hnil, ?_⟩
      unfold tryToSendChunk
      rw [if_neg hge]
      simp only [RingBuffer.NextBatch, RingBuffer.UnprocessedCount]
      rw [if_neg (by simpa [List.length_eq_zero] using hnil)]

theorem writerInv_tryToSendChunk (s : WriterState α) (h : WriterInv s) :
    WriterInv (tryToSendChunk s) := by
  obtain ⟨h1, h2, h3, h4⟩ := h
  rcases tryToSendChunk_cases s with ⟨hge, heq⟩ | ⟨hlt, hnil, heq⟩ | ⟨hlt, hne, heq⟩
  · rw [heq]
    exact ⟨h1, h2, Int.natCast_nonneg _, le_refl _⟩
  · rw [heq]
    exact ⟨h1, h2, h3, h4⟩
  · rw [heq]
    refine ⟨?_, ?_, Int.natCast_nonneg _, le_refl _⟩
    · show ((s.buff.unprocessed.take s.MaxBatchSize :: s.pending).length : Int) =
        s.requestsActive + 1
      simp only [List.length_cons]
      push_cast
      omega
    · show s.requestsActive + 1 ≤ (s.MaxRequests : Int)
      omega

theorem writerInv_processOne (s : WriterState α) (a : α) (keep : Bool)
    (h : WriterInv s) : WriterInv (processOne s a keep) := by
  obtain ⟨h1, h2, h3, h4⟩ := h
  have hmono : s.totalWaiting ≤ (((s.buff.Add a).1).UnprocessedCount : Int) := by
    refine le_trans h4 ?_
    exact_mod_cast RingBuffer.length_le_length_Add s.buff a
  cases keep with
  | false =>
    simp only [processOne, Bool.false_eq_true, if_false]
    exact ⟨h1, h2, h3, h4⟩
  | true =>
    simp only [processOne, if_true]
    split
    · exact writerInv_tryToSendChunk _ ⟨h1, h2, h3, hmono⟩
    · exact ⟨h1, h2, h3, hmono⟩

theorem writerInv_handleRequestDone (s : WriterState α) (count : Nat)
    (h : WriterInv (afterRequestDone s count)) :
    WriterInv (handleRequestDone s count) := by
  show WriterInv
    (if (afterRequestDone s count).totalWaiting > 0 then
      tryToSendChunk (afterRequestDone s count)
    else afterRequestDone s count)
  split
  · exact writerInv_tryToSendChunk _ h
  · exact h

theorem writerInv_completeSend [DecidableEq α] (s : WriterState α) (b : List α)
    (ok : Bool) (hb : b ∈ s.pending) (h : WriterInv s) :
    WriterInv (completeSend s b ok) := by
  obtain ⟨h1, h2, h3, h4⟩ := h
  have hlen : (s.pending.erase b).length = s.pending.length - 1 :=
    List.length_erase_of_mem hb
  have hpos : 1 ≤ s.pending.length :=
    List.length_pos.mpr (List.ne_nil_of_mem hb)
  unfold completeSend
  refine writerInv_handleRequestDone _ _ ?_
  refine ⟨?_, ?_, h3, h4⟩
  · show ((s.pending.erase b).length : Int) = s.requestsActive - 1
    rw [hlen]
    omega
  · show s.requestsActive - 1 ≤ (s.MaxRequests : Int)
    omega

theorem writerInv_step [DecidableEq α] {s t : WriterState α} (hst : Step s t)
    (h : WriterInv s) : WriterInv t := by
  cases hst with
  | input a keep => exact writerInv_processOne s a keep h
  | flush => exact writerInv_tryToSendChunk s h
  | complete b ok hb => exact writerInv_completeSend s b ok hb h

theorem writerInv_initState (α : Type) (mb mr mbs : Nat) :
    WriterInv (initState α mb mr mbs) :=
  ⟨rfl, Int.natCast_nonneg _, le_refl 0, le_refl 0⟩

theorem writerInv_reachable [DecidableEq α] (mb mr mbs : Nat) (s : WriterState α)
    (h : Relation.ReflTransGen Step (initState α mb mr mbs) s) : WriterInv s := by
  induction h with
  | refl => exact writerInv_initState α mb mr mbs
  | tail _ hstep ih => exact writerInv_step hstep ih

/-- Claim C1: in every state of the coordinating loop reachable from start
under any interleaving of input-record arrivals, opportunistic flushes, and
send completions, the number of launched-but-uncompleted send tasks (the
concurrently executing sink invocations) equals `requestsActive` and never
exceeds `MaxRequests`. -/
theorem concurrency_bound (α : Type) [DecidableEq α] (mb mr mbs : Nat)
    (s : WriterState α)
    (h : Relation.ReflTransGen Step (initState α mb mr mbs) s) :
    s.pending.length ≤ s.MaxRequests ∧
      (s.pending.length : Int) = s.requestsActive ∧
      s.requestsActive ≤ (s.MaxRequests : Int) := by
  obtain ⟨h1, h2, _, _⟩ := writerInv_reachable mb mr mbs s h
  refine ⟨?_, h1, h2⟩
  omega

/-- Witness for C1 on a concrete two-step trace: one record arrives and a
flush dispatches it. -/
theorem concurrency_bound_witness :
    (tryToSendChunk (processOne (initState Nat 4 2 3) 7 true)).pending.length ≤
        (tryToSendChunk (processOne (initState Nat 4 2 3) 7 true)).MaxRequests ∧
      ((tryToSendChunk (processOne (initState Nat 4 2 3) 7 true)).pending.length : Int) =
        (tryToSendChunk (processOne (initState Nat 4 2 3) 7 true)).requestsActive ∧
      (tryToSendChunk (processOne (initState Nat 4 2 3) 7 true)).requestsActive ≤
        ((tryToSendChunk (processOne (initState Nat 4 2 3) 7 true)).MaxRequests : Int) :=
  concurrency_bound Nat 4 2 3 _
    (Relation.ReflTransGen.tail
      (Relation.ReflTransGen.single (Step.input _ 7 true))
      (Step.flush _))

/-- Claim C8: in every reachable state whose ring buffer holds no unprocessed
items, `tryToSendChunk` is a no-op: the state (all counters, the buffer and
the set of launched send tasks) is unchanged. -/
theorem tryToSendChunk_noop_on_empty (α : Type) [DecidableEq α]
    (mb mr mbs : Nat) (s : WriterState α)
    (h : Relation.ReflTransGen Step (initState α mb mr mbs) s)
    (hempty : s.buff.unprocessed = []) :
    tryToSendChunk s = s := by
  obtain ⟨_, _, h3, h4⟩ := writerInv_reachable mb mr mbs s h
  have hW : s.totalWaiting = 0 := by
    unfold RingBuffer.UnprocessedCount at h4
    rw [hempty] at h4
    simp only [List.length_nil, Nat.cast_zero] at h4
    omega
  rcases tryToSendChunk_cases s with ⟨_, heq⟩ | ⟨_, _, heq⟩ | ⟨_, hne, heq⟩
  · rw [heq]
    have hc : (s.buff.UnprocessedCount : Int) = s.totalWaiting := by
      simp [RingBuffer.UnprocessedCount, hempty, hW]
    rw [hc]
  · exact heq
  · exact absurd (by simp [hempty]) hne

/-- Witness for C8: the freshly started writer has an empty buffer and a
flush leaves it untouched. -/
theorem tryToSendChunk_noop_on_empty_witness :
    tryToSendChunk (initState Nat 5 2 3) = initState Nat 5 2 3 :=
  tryToSendChunk_noop_on_empty Nat 5 2 3 _ Relation.ReflTransGen.refl rfl

theorem handleRequestDone_eq (s : WriterState α) (count : Nat) :
    handleRequestDone s count = tryToSendChunk (afterRequestDone s count) ∨
      handleRequestDone s count = afterRequestDone s count := by
  have hdef : handleRequestDone s count =
      if (afterRequestDone s count).totalWaiting > 0 then
        tryToSendChunk (afterRequestDone s count)
      else afterRequestDone s count := rfl
  rw [hdef]
  split
  · exact Or.inl rfl
  · exact Or.inr rfl

theorem tryToSendChunk_preserves (s : WriterState α) :
    (tryToSendChunk s).TotalSent = s.TotalSent ∧
      (tryToSendChunk s).TotalFailedToSend = s.TotalFailedToSend ∧
      (tryToSendChunk s).TotalReceived = s.TotalReceived ∧
      (tryToSendChunk s).TotalFilteredOut = s.TotalFilteredOut ∧
      (tryToSendChunk s).TotalOverwritten = s.TotalOverwritten ∧
      (tryToSendChunk s).MaxRequests = s.MaxRequests ∧
      (tryToSendChunk s).MaxBatchSize = s.MaxBatchSize ∧
      (tryToSendChunk s).buff.capacity = s.buff.capacity ∧
      (∃ k, (tryToSendChunk s).buff.unprocessed = s.buff.unprocessed.drop k) ∧
      ((tryToSendChunk s).pending = s.pending ∨
        (tryToSendChunk s).pending =
          s.buff.unprocessed.take s.MaxBatchSize :: s.pending) := by
  rcases tryToSendChunk_cases s with ⟨_, heq⟩ | ⟨_, _, heq⟩ | ⟨_, _, heq⟩ <;> rw [heq]
  · exact ⟨rfl, rfl, rfl, rfl, rfl, rfl, rfl, rfl, ⟨0, by simp⟩, Or.inl rfl⟩
  · exact ⟨rfl, rfl, rfl, rfl, rfl, rfl, rfl, rfl, ⟨0, by simp⟩, Or.inl rfl⟩
  · exact ⟨rfl, rfl, rfl, rfl, rfl, rfl, rfl, rfl, ⟨s.MaxBatchSize, rfl⟩, Or.inr rfl⟩

/-- Claim C3: when a dispatched batch of `n` records completes with a sink
error, exactly the failed-to-send counter grows by `n` while the sent,
received and overwritten counters are unchanged; the failed batch is removed
from the in-flight set and is never re-queued or re-buffered (the buffer only
loses items, and the only batch possibly launched afterwards is a fresh one
drawn from the buffer); and the loop keeps accepting new input. -/
theorem sink_failure_semantics (α : Type) [DecidableEq α] (s : WriterState α)
    (b : List α) (hb : b ∈ s.pending) :
    (completeSend s b false).TotalFailedToSend = s.TotalFailedToSend + b.length ∧
      (completeSend s b false).TotalSent = s.TotalSent ∧
      (completeSend s b false).TotalReceived = s.TotalReceived ∧
      (completeSend s b false).TotalOverwritten = s.TotalOverwritten ∧
      (∃ k, (completeSend s b false).buff.unprocessed = s.buff.unprocessed.drop k) ∧
      ((completeSend s b false).pending = s.pending.erase b ∨
        (completeSend s b false).pending =
          s.buff.unprocessed.take s.MaxBatchSize :: s.pending.erase b) ∧
      (∀ (a : α) (keep : Bool),
        Step (completeSend s b false) (processOne (completeSend s b false) a keep)) := by
  have hstep : ∀ (a : α) (keep : Bool),
      Step (completeSend s b false) (processOne (completeSend s b false) a keep) :=
    fun a keep => Step.input _ a keep
  have hdef : completeSend s b false = handleRequestDone
      { s with
        pending := s.pending.erase b
        TotalSent := s.TotalSent
        TotalFailedToSend := s.TotalFailedToSend + b.length } b.length := rfl
  rcases handleRequestDone_eq
      ({ s with
        pending := s.pending.erase b
        TotalSent := s.TotalSent
        TotalFailedToSend := s.TotalFailedToSend + b.length } : WriterState α)
      b.length with h | h
  · rw [hdef, h] at hstep ⊢
    obtain ⟨p1, p2, p3, _, p5, _, _, _, p9, p10⟩ := tryToSendChunk_preserves
      (afterRequestDone
        { s with
          pending := s.pending.erase b
          TotalSent := s.TotalSent
          TotalFailedToSend := s.TotalFailedToSend + b.length } b.length)
    exact ⟨p2, p1, p3, by exact (tryToSendChunk_preserves _).2.2.2.2.1, p9, p10, hstep⟩
  · rw [hdef, h] at hstep ⊢
    exact ⟨rfl, rfl, rfl, rfl, ⟨0, rfl⟩, Or.inl rfl, hstep⟩

/-- Witness for C3: an always-failing sink completing a dispatched batch of 5
records yields failed-to-send 5 and sent 0, with the batch removed from the
in-flight set and nothing re-buffered. -/
theorem sink_failure_semantics_witness :
    (completeSend
        (⟨1, 1000, ⟨10, []⟩, 1, 0, 5, 0, 5, 0, 0, 0, [[1, 2, 3, 4, 5]]⟩ :
          WriterState Nat)
        [1, 2, 3, 4, 5] false).TotalFailedToSend = 5 ∧
      (completeSend
        (⟨1, 1000, ⟨10, []⟩, 1, 0, 5, 0, 5, 0, 0, 0, [[1, 2, 3, 4, 5]]⟩ :
          WriterState Nat)
        [1, 2, 3, 4, 5] false).TotalSent = 0 := by
  have h := sink_failure_semantics Nat
    (⟨1, 1000, ⟨10, []⟩, 1, 0, 5, 0, 5, 0, 0, 0, [[1, 2, 3, 4, 5]]⟩ : WriterState Nat)
    [1, 2, 3, 4, 5] (by decide)
  exact ⟨h.1, h.2.1⟩

/-- Claim C4: `handleRequestDone` decrements the active-request count by one
and the in-flight counter by the completed batch's size; when no backlog was
recorded it does nothing else, and when a backlog was recorded
(`totalWaiting > 0`) it immediately invokes `tryToSendChunk`, so that with a
free slot, a positive batch size and a non-empty buffer, a new batch is
dispatched at once, without waiting for new input. -/
theorem handleRequestDone_spec (α : Type) (s : WriterState α) (count : Nat) :
    ((afterRequestDone s count).requestsActive = s.requestsActive - 1 ∧
      (afterRequestDone s count).TotalInFlight = s.TotalInFlight - (count : Int)) ∧
    (s.totalWaiting ≤ 0 → handleRequestDone s count = afterRequestDone s count) ∧
    (0 < s.totalWaiting →
      handleRequestDone s count = tryToSendChunk (afterRequestDone s count)) ∧
    (0 < s.totalWaiting → s.requestsActive ≤ (s.MaxRequests : Int) →
      0 < s.MaxBatchSize → s.buff.unprocessed ≠ [] →
      (handleRequestDone s count).requestsActive = s.requestsActive ∧
        (handleRequestDone s count).pending =
          s.buff.unprocessed.take s.MaxBatchSize :: s.pending ∧
        (handleRequestDone s count).buff.unprocessed =
          s.buff.unprocessed.drop s.MaxBatchSize ∧
        (handleRequestDone s count).TotalInFlight =
          s.TotalInFlight - (count : Int) +
            ((s.buff.unprocessed.take s.MaxBatchSize).length : Int)) := by
  have hdef : handleRequestDone s count =
      if (afterRequestDone s count).totalWaiting > 0 then
        tryToSendChunk (afterRequestDone s count)
      else afterRequestDone s count := rfl
  have hwc : (afterRequestDone s count).totalWaiting = s.totalWaiting := rfl
  refine ⟨⟨rfl, rfl⟩, ?_, ?_, ?_⟩
  · intro hW
    rw [hdef, if_neg (by omega)]
  · intro hW
    rw [hdef, if_pos (by omega)]
  · intro hW hle hmbs hnil
    rw [hdef, if_pos (by omega)]
    rcases tryToSendChunk_cases (afterRequestDone s count) with
      ⟨hge, _⟩ | ⟨_, hnil2, _⟩ | ⟨_, _, heq⟩
    · exfalso
      have e1 : (afterRequestDone s count).requestsActive = s.requestsActive - 1 := rfl
      have e2 : (afterRequestDone s count).MaxRequests = s.MaxRequests := rfl
      omega
    · exfalso
      have e3 : (afterRequestDone s count).buff = s.buff := rfl
      have e4 : (afterRequestDone s count).MaxBatchSize = s.MaxBatchSize := rfl
      rw [e3, e4] at hnil2
      rcases List.take_eq_nil_iff.mp hnil2 with h | h
      · omega
      · exact hnil h
    · rw [heq]
      refine ⟨?_, rfl, rfl, rfl⟩
      show s.requestsActive - 1 + 1 = s.requestsActive
      omega

/-- Witness for C4: a writer at its request limit with a recorded backlog of
3 buffered items; the completion of a 1-record send immediately dispatches a
fresh 2-record batch. -/
theorem handleRequestDone_spec_witness :
    (handleRequestDone
        (⟨1, 2, ⟨5, [7, 8, 9]⟩, 1, 3, 3, 0, 1, 0, 0, 0, [[6]]⟩ : WriterState Nat)
        1).requestsActive = 1 ∧
      (handleRequestDone
        (⟨1, 2, ⟨5, [7, 8, 9]⟩, 1, 3, 3, 0, 1, 0, 0, 0, [[6]]⟩ : WriterState Nat)
        1).pending = [[7, 8], [6]] ∧
      (handleRequestDone
        (⟨1, 2, ⟨5, [7, 8, 9]⟩, 1, 3, 3, 0, 1, 0, 0, 0, [[6]]⟩ : WriterState Nat)
        1).buff.unprocessed = [9] ∧
      (handleRequestDone
        (⟨1, 2, ⟨5, [7, 8, 9]⟩, 1, 3, 3, 0, 1, 0, 0, 0, [[6]]⟩ : WriterState Nat)
        1).TotalInFlight = 2 := by
  have h := (handleRequestDone_spec Nat
    (⟨1, 2, ⟨5, [7, 8, 9]⟩, 1, 3, 3, 0, 1, 0, 0, 0, [[6]]⟩ : WriterState Nat)
    1).2.2.2 (by decide) (by decide) (by decide) (by decide)
  refine ⟨h.1, ?_, h.2.2.1, ?_⟩
  · rw [h.2.1]
    rfl
  · rw [h.2.2.2]
    rfl

/-- Claim C5: invoking `WaitForShutdown` before `Start` (while `shutdownFlag`
is still nil) panics immediately rather than blocking or silently returning;
once started, it returns only in the lifecycle state in which the coordinating
loop has fully exited (the channel is closed), and blocks exactly while the
loop is still running. -/
theorem waitForShutdown_spec :
    WaitForShutdown ShutdownFlag.notStarted =
        WaitOutcome.panicked "should not wait for writer shutdown when not running" ∧
      (∀ f : ShutdownFlag,
        WaitForShutdown f = WaitOutcome.returned ↔ f = ShutdownFlag.closed) ∧
      (∀ f : ShutdownFlag,
        WaitForShutdown f = WaitOutcome.blocked ↔ f = ShutdownFlag.running) := by
  refine ⟨rfl, ?_, ?_⟩ <;> intro f <;> cases f <;> simp [WaitForShutdown]

theorem config_tryToSendChunk (s : WriterState α) :
    (tryToSendChunk s).MaxRequests = s.MaxRequests ∧
      (tryToSendChunk s).MaxBatchSize = s.MaxBatchSize ∧
      (tryToSendChunk s).buff.capacity = s.buff.capacity := by
  rcases tryToSendChunk_cases s with ⟨_, heq⟩ | ⟨_, _, heq⟩ | ⟨_, _, heq⟩ <;> rw [heq] <;>
    exact ⟨rfl, rfl, rfl⟩

theorem config_processOne (s : WriterState α) (a : α) (keep : Bool) :
    (processOne s a keep).MaxRequests = s.MaxRequests ∧
      (processOne s a keep).MaxBatchSize = s.MaxBatchSize ∧
      (processOne s a keep).buff.capacity = s.buff.capacity := by
  cases keep with
  | false => exact ⟨rfl, rfl, rfl⟩
  | true =>
    simp only [processOne, if_true]
    split
    · exact ⟨(config_tryToSendChunk _).1, (config_tryToSendChunk _).2.1,
        (config_tryToSendChunk _).2.2.trans (RingBuffer.capacity_Add s.buff a)⟩
    · exact ⟨rfl, rfl, RingBuffer.capacity_Add s.buff a⟩

theorem config_handleRequestDone (s : WriterState α) (count : Nat) :
    (handleRequestDone s count).MaxRequests = s.MaxRequests ∧
      (handleRequestDone s count).MaxBatchSize = s.MaxBatchSize ∧
      (handleRequestDone s count).buff.capacity = s.buff.capacity := by
  rcases handleRequestDone_eq s count with h | h <;> rw [h]
  · exact ⟨(config_tryToSendChunk _).1, (config_tryToSendChunk _).2.1,
      (config_tryToSendChunk _).2.2⟩
  · exact ⟨rfl, rfl, rfl⟩

theorem config_completeSend [DecidableEq α] (s : WriterState α) (b : List α)
    (ok : Bool) :
    (completeSend s b ok).MaxRequests = s.MaxRequests ∧
      (completeSend s b ok).MaxBatchSize = s.MaxBatchSize ∧
      (completeSend s b ok).buff.capacity = s.buff.capacity := by
  unfold completeSend
  exact ⟨(config_handleRequestDone _ _).1, (config_handleRequestDone _ _).2.1,
    (config_handleRequestDone _ _).2.2⟩

/-- Claim C9: the `run` prologue replaces each configuration field left at its
Go zero value by its default (10000 buffered, 10 requests, 1000 batch size),
keeps every explicitly set field unchanged, and no step of the processing loop
ever changes the configuration afterwards. -/
theorem run_defaults_spec (c : WriterConfig) :
    ((c.MaxBuffered = 0 → (applyDefaults c).MaxBuffered = 10000) ∧
      (c.MaxBuffered ≠ 0 → (applyDefaults c).MaxBuffered = c.MaxBuffered)) ∧
    ((c.MaxRequests = 0 → (applyDefaults c).MaxRequests = 10) ∧
      (c.MaxRequests ≠ 0 → (applyDefaults c).MaxRequests = c.MaxRequests)) ∧
    ((c.MaxBatchSize = 0 → (applyDefaults c).MaxBatchSize = 1000) ∧
      (c.MaxBatchSize ≠ 0 → (applyDefaults c).MaxBatchSize = c.MaxBatchSize)) ∧
    (∀ (α : Type) [DecidableEq α] (s t : WriterState α), Step s t →
      t.MaxRequests = s.MaxRequests ∧ t.MaxBatchSize = s.MaxBatchSize ∧
        t.buff.capacity = s.buff.capacity) := by
  refine ⟨⟨?_, ?_⟩, ⟨?_, ?_⟩, ⟨?_, ?_⟩, ?_⟩
  · intro h
    simp [applyDefaults, h, DefaultInstanceMaxBuffered]
  · intro h
    simp [applyDefaults, h]
  · intro h
    simp [applyDefaults, h, DefaultInstanceMaxRequests]
  · intro h
    simp [applyDefaults, h]
  · intro h
    simp [applyDefaults, h, DefaultInstanceMaxBatchSize]
  · intro h
    simp [applyDefaults, h]
  · intro α _ s t hst
    cases hst with
    | input a keep => exact config_processOne s a keep
    | flush => exact config_tryToSendChunk s
    | complete b ok hb => exact config_completeSend s b ok

/-- Witness for C9: unset buffered and batch-size fields get their defaults,
a set request count of 7 is kept, and a flush step preserves the
configuration. -/
theorem run_defaults_spec_witness :
    (applyDefaults ⟨0, 7, 0⟩).MaxBuffered = 10000 ∧
      (applyDefaults ⟨0, 7, 0⟩).MaxRequests = 7 ∧
      (applyDefaults ⟨0, 7, 0⟩).MaxBatchSize = 1000 ∧
      (tryToSendChunk (initState Nat 4 2 3)).MaxRequests =
        (initState Nat 4 2 3).MaxRequests := by
  have h := run_defaults_spec ⟨0, 7, 0⟩
  exact ⟨h.1.1 rfl, h.2.1.2 (by decide), h.2.2.1.1 rfl,
    (h.2.2.2 Nat _ _ (Step.flush _)).1⟩

/-- Claim C10: for a requested size within the capacity of the pooled slice,
`getChunkSlice` returns a slice of exactly the requested length over the same
backing array; every cell of the backing array between the requested size and
the slice's previous length is nilled out, and under the pool invariant that
cells beyond the previous length are already nil, every cell at or beyond the
requested size is nil, so a recycled chunk slice retains no reference to a
previous, larger batch beyond its returned length. -/
theorem getChunkSlice_spec (α : Type) (cs : ChunkSlice α) (size : Nat)
    (hsize : size ≤ cs.backing.length) (hlen : cs.len ≤ cs.backing.length) :
    (getChunkSlice cs size).len = size ∧
      (getChunkSlice cs size).backing.length = cs.backing.length ∧
      (∀ i, size ≤ i → i < cs.len →
        (getChunkSlice cs size).backing[i]? = some none) ∧
      ((∀ i, cs.len ≤ i → i < cs.backing.length → cs.backing[i]? = some none) →
        ∀ i, size ≤ i → i < cs.backing.length →
          (getChunkSlice cs size).backing[i]? = some none) := by
  refine ⟨rfl, ?_, ?_, ?_⟩
  · exact List.length_mapIdx
  · intro i h1 h2
    have h3 : i < cs.backing.length := lt_of_lt_of_le h2 hlen
    show (cs.backing.mapIdx fun i a =>
      if size ≤ i ∧ i < cs.len then none else a)[i]? = some none
    rw [List.getElem?_mapIdx, List.getElem?_eq_getElem h3]
    simp [h1, h2]
  · intro hinv i h1 h2
    show (cs.backing.mapIdx fun i a =>
      if size ≤ i ∧ i < cs.len then none else a)[i]? = some none
    rw [List.getElem?_mapIdx]
    by_cases h3 : i < cs.len
    · rw [List.getElem?_eq_getElem h2]
      simp [h1, h3]
    · rw [hinv i (by omega) h2]
      simp

/-- Witness for C10: a pooled slice of capacity 4 whose previous batch had
length 2, shrunk to size 1: the returned length is 1 and every backing cell at
index 1 or above is nil. -/
theorem getChunkSlice_spec_witness :
    (getChunkSlice (⟨[some 4, some 5, none, none], 2⟩ : ChunkSlice Nat) 1).len = 1 ∧
      (getChunkSlice (⟨[some 4, some 5, none, none], 2⟩ : ChunkSlice Nat)
        1).backing.length = 4 ∧
      (getChunkSlice (⟨[some 4, some 5, none, none], 2⟩ : ChunkSlice Nat)
        1).backing[1]? = some none ∧
      (getChunkSlice (⟨[some 4, some 5, none, none], 2⟩ : ChunkSlice Nat)
        1).backing[3]? = some none := by
  have h := getChunkSlice_spec Nat
    (⟨[some 4, some 5, none, none], 2⟩ : ChunkSlice Nat) 1 (by decide) (by decide)
  have hinv : ∀ i, 2 ≤ i →
      i < (⟨[some 4, some 5, none, none], 2⟩ : ChunkSlice Nat).backing.length →
      (⟨[some 4, some 5, none, none], 2⟩ : ChunkSlice Nat).backing[i]? = some none := by
    intro i h1 h2
    simp only [List.length_cons, List.length_nil] at h2
    interval_cases i <;> rfl
  exact ⟨h.1, h.2.1, h.2.2.1 1 (le_refl 1) (by decide),
    h.2.2.2 hinv 3 (by decide) (by decide)⟩

end SignalFxWriter
